import Mathlib

set_option maxRecDepth 20000

/-!
Shallow embedding of the firmware image extraction tools:
the partition-table decoder of 01-breaker.py and the resource
extraction / bitmap reconstruction pipeline of 03-bitmap.py.

Byte buffers are modelled as List Nat (each element a byte value);
Python strings arising from ASCII decoding are modelled as lists of
character codes.  A Python struct.error escaping a function is
modelled by an Option-valued result (none = the call raised).
-/

namespace Firmware

/-- Little-endian 32-bit value from four byte values. -/
def le32 (b0 b1 b2 b3 : Nat) : Nat :=
  b0 + 256 * (b1 + 256 * (b2 + 256 * b3))

/-- Python slice data[pos : pos + len]. -/
def sliceOf (data : List Nat) (pos len : Nat) : List Nat :=
  (data.drop pos).take len

/-- Unchecked little-endian u32 read at a byte position (bytes past the
end read as 0; callers guard the bounds). -/
def readLE32 (data : List Nat) (pos : Nat) : Nat :=
  le32 (data.getD pos 0) (data.getD (pos + 1) 0)
    (data.getD (pos + 2) 0) (data.getD (pos + 3) 0)

/-- struct.unpack of a single little-endian u32 from data[pos : pos+4];
fails (struct.error) unless the slice has exactly 4 bytes. -/
def unpackLE32 (data : List Nat) (pos : Nat) : Option Nat :=
  if pos + 4 ≤ data.length then some (readLE32 data pos) else none

/-- struct.unpack of four little-endian u32 values from data[pos : pos+16];
fails (struct.error) unless the slice has exactly 16 bytes. -/
def unpack4u32 (data : List Nat) (pos : Nat) : Option (Nat × Nat × Nat × Nat) :=
  if pos + 16 ≤ data.length then
    some (readLE32 data pos, readLE32 data (pos + 4),
      readLE32 data (pos + 8), readLE32 data (pos + 12))
  else none

/-! ## 01-breaker.py : partition table decoder -/

/-- A decoded partition table entry (the data field of the Python dict is
populated later by the extractor and is not part of decoding). -/
structure Partition where
  offset : Nat
  size : Nat
deriving DecidableEq

instance : Inhabited Partition := ⟨⟨0, 0⟩⟩

/-- One Type-A (linked list) header: unpack four little-endian u32 words
(offset, size, next_offset, unknown) from the 16-byte chunk at header_pos;
the partition records the first two words. -/
def parseTypeA (data : List Nat) (header_pos : Nat) : Option Partition := do
  let (offset, size, _next_offset, _) ← unpack4u32 data header_pos
  pure { offset := offset, size := size }

/-- analyze_hybrid_headers: the five Type-A entries are processed in list
order, then the Type-B (absolute pointer) header at 0xF4 is unpacked as
(val1, val2, val3, _) and part_4_audio_dsp is assigned offset = val2,
size = val3.  Any struct.unpack failure raises, aborting the whole
function (modelled by none).  The association list is in the Python
dict insertion order. -/
def analyze_hybrid_headers (data : List Nat) : Option (List (String × Partition)) := do
  let p0 ← parseTypeA data 0x70
  let p1 ← parseTypeA data 0x78
  let p2 ← parseTypeA data 0x80
  let p3 ← parseTypeA data 0xCC
  let p5 ← parseTypeA data 0x14C
  let (_val1, val2, val3, _) ← unpack4u32 data 0xF4
  pure [("part_0_flag", p0), ("part_1_firmware_a", p1), ("part_2_firmware_b", p2),
    ("part_3_resource", p3), ("part_5_main_fs", p5),
    ("part_4_audio_dsp", { offset := val2, size := val3 })]

/-- The largest byte index any fixed header read touches is
0x14C + 16 = 0x15C. -/
def minFullDecodeLength : Nat := 0x15C

end Firmware

namespace Firmware

/-! ## 03-bitmap.py : resource extraction pipeline -/

/-- Magic signature marking resource metadata entries
(bytes 77 00 00 3A 75). -/
def MAGIC_SIG : List Nat := [0x77, 0x00, 0x00, 0x3A, 0x75]

/-- swap_bytes_16bit: discard a trailing odd byte, then swap adjacent
bytes (indices 0↔1, 2↔3, ...). -/
def swap_bytes_16bit : List Nat → List Nat
  | a :: b :: rest => b :: a :: swap_bytes_16bit rest
  | _ => []

/-- get_stride_info: (src_stride, dst_stride, padding).  In the source, (src_stride + 3) & ~3 on a nonnegative int equals rounding src_stride + 3
down to a multiple of 4. -/
def get_stride_info (width : Nat) : Nat × Nat × Nat :=
  let src_stride := width * 2
  let dst_stride := (src_stride + 3) / 4 * 4
  (src_stride, dst_stride, dst_stride - src_stride)

/-- restride_to_bmp: pad each tightly packed src_stride-byte row to
dst_stride bytes; input shorter than src_stride * height is zero-padded
first (defensive, never an error). -/
def restride_to_bmp (raw_data : List Nat) (width height : Nat) : List Nat :=
  let si := get_stride_info width
  let src_stride := si.1
  let padding := si.2.2
  if padding = 0 ∧ raw_data.length = src_stride * height then raw_data
  else
    let expected_len := src_stride * height
    let raw2 := if raw_data.length < expected_len then
        raw_data ++ List.replicate (expected_len - raw_data.length) 0
      else raw_data
    ((List.range height).map fun y =>
      sliceOf raw2 (y * src_stride) src_stride ++ List.replicate padding 0).flatten

/-- struct.pack of a u32 or an i32 after reduction into
[0, 2^32): four little-endian bytes. -/
def pack_u32 (n : Nat) : List Nat :=
  [n % 256, n / 256 % 256, n / 65536 % 256, n / 16777216 % 256]

/-- struct.pack of a signed value z: little-endian encoding of the
value reduced modulo 2^32 (two-complement). -/
def pack_i32 (z : Int) : List Nat :=
  pack_u32 ((z % 4294967296).toNat)

/-- create_bmp_header: 54-byte header = BITMAPFILEHEADER(14) +
BITMAPINFOHEADER(40, with negated height) + RGB565 masks(12). -/
def create_bmp_header (width height : Nat) : List Nat :=
  let si := get_stride_info width
  let dst_stride := si.2.1
  let image_size := dst_stride * height
  let headers_size := 14 + 40 + 12
  let file_size := headers_size + image_size
  [66, 77] ++ pack_u32 (file_size % 4294967296) ++ [0, 0, 0, 0] ++ pack_u32 headers_size ++
    pack_u32 40 ++ pack_i32 (width : Int) ++ pack_i32 (-(height : Int)) ++
    [1, 0] ++ [16, 0] ++ pack_u32 3 ++ pack_u32 (image_size % 4294967296) ++
    pack_i32 2835 ++ pack_i32 2835 ++ pack_u32 0 ++ pack_u32 0 ++
    pack_u32 0xF800 ++ pack_u32 0x07E0 ++ pack_u32 0x001F

/-- decode_raw_name: truncate at the first null byte, then decode as
ASCII with errors ignored (bytes ≥ 128 are dropped). -/
def decode_raw_name (raw_bytes : List Nat) : List Nat :=
  ((raw_bytes.takeWhile fun b => b != 0).filter fun b => b < 128)

/-- Python str.isalnum restricted to the ASCII character codes this
pipeline produces (names are ASCII-decoded before sanitizing). -/
def isAlnumCode (c : Nat) : Bool :=
  (48 ≤ c && c ≤ 57) || (65 ≤ c && c ≤ 90) || (97 ≤ c && c ≤ 122)

/-- The whitelisted punctuation "._-(), " as character codes. -/
def keepCodes : List Nat := [46, 95, 45, 40, 41, 44, 32]

/-- Python str.strip() on the sanitizer output: after the whitelist
map the only whitespace character that can remain is the space (32), so
strip removes leading and trailing spaces. -/
def stripSpaces (l : List Nat) : List Nat :=
  ((l.dropWhile fun c => c == 32).reverse.dropWhile fun c => c == 32).reverse

/-- sanitize_filename: replace path separators / (47) and \ (92) with _
(95), keep alphanumerics and "._-(), ", replace everything else with _,
then strip. -/
def sanitize_filename (original_name : List Nat) : List Nat :=
  let safe := original_name.map fun c => if c == 47 || c == 92 then 95 else c
  stripSpaces (safe.map fun c => if isAlnumCode c || c ∈ keepCodes then c else 95)

/-- Python str.lower() on an ASCII code. -/
def lowerCode (c : Nat) : Nat := if 65 ≤ c && c ≤ 90 then c + 32 else c

/-- save_name_base lowercased, tested for the suffix .bmp. -/
def endsWithBmp (l : List Nat) : Bool :=
  List.isSuffixOf [46, 98, 109, 112] (l.map lowerCode)

/-- Append ".bmp" to an image save name unless it already ends in it
(case-insensitively). -/
def bmpName (base : List Nat) : List Nat :=
  if endsWithBmp base then base else base ++ [46, 98, 109, 112]

/-! ### Resource table scanner -/

/-- A scanned resource descriptor (one accepted metadata record). -/
structure RDesc where
  meta_pos : Nat
  offset : Nat
  width : Nat
  height : Nat
  name : List Nat
deriving DecidableEq

instance : Inhabited RDesc := ⟨⟨0, 0, 0, 0, []⟩⟩

/-- Does the 5-byte magic signature occur at position p? -/
def matchAt (data : List Nat) (p : Nat) : Bool :=
  decide (sliceOf data p 5 = MAGIC_SIG)

/-- bytes.find(MAGIC_SIG, start): position of the first occurrence of
the signature at or after start, or none. -/
def findMagicFrom (data : List Nat) (start : Nat) : Option Nat :=
  (List.range data.length).find? fun p => decide (start ≤ p) && matchAt data p

/-- All match positions visited by the scan loop: each iteration finds
the next occurrence at or after start and resumes at that position + 1. -/
def scanPositions (data : List Nat) (start : Nat) : List Nat :=
  match h : findMagicFrom data start with
  | none => []
  | some p => p :: scanPositions data (p + 1)
termination_by data.length - start
decreasing_by
  have hp : start ≤ p ∧ matchAt data p := by
    have := List.find?_some h
    simpa using this
  have hmem : p < data.length := by
    have := List.mem_of_find?_eq_some h
    simpa [List.mem_range] using this
  omega

/-- Parse the fixed-layout record at a signature match: little-endian
u32 offset at pos+20, width at pos+24, height at pos+28, then the
64-byte name field at pos+32; struct.error on a short slice skips the
match, and the record is kept only if offset < file_size and the
decoded name is non-empty. -/
def parseEntry (data : List Nat) (pos : Nat) : Option RDesc := do
  let offset ← unpackLE32 data (pos + 20)
  let width ← unpackLE32 data (pos + 24)
  let height ← unpackLE32 data (pos + 28)
  let original_name := decode_raw_name (sliceOf data (pos + 32) 64)
  if offset < data.length ∧ 0 < original_name.length then
    pure { meta_pos := pos, offset := offset, width := width, height := height,
           name := original_name }
  else none

/-- The list of collected descriptor list, in discovery order. -/
def scanEntries (data : List Nat) : List RDesc :=
  (scanPositions data 0).filterMap (parseEntry data)

/-! ### Boundary inference and manifest -/

/-- entries.sort with the offset field as key: stable ascending sort. -/
def sortEntries (entries : List RDesc) : List RDesc :=
  entries.mergeSort fun a b => decide (a.offset ≤ b.offset)

/-- min of the meta_pos fields, with file_size as the default for an empty list. -/
def dataEndLimit (metas : List Nat) (file_size : Nat) : Nat :=
  match metas with
  | [] => file_size
  | x :: xs => xs.foldl min x

/-- The raw size the loop computes for entry i of the offset-sorted list
(Python int arithmetic, so it may be negative). -/
def rawSizeAt (sorted : List RDesc) (dEnd file_size : Nat) (i : Nat) : Int :=
  if i < sorted.length - 1 then
    ((sorted.getD (i + 1) default).offset : Int) - ((sorted.getD i default).offset : Int)
  else
    let r : Int := (dEnd : Int) - ((sorted.getD i default).offset : Int)
    if r < 0 then (file_size : Int) - ((sorted.getD i default).offset : Int) else r

/-- The per-resource processing outcome: (final_data, is_image,
row_padding_bytes).  Classification: width > 0 and height > 0 and
|raw_size - width*height*2| < 4096; otherwise the raw bytes pass
through unchanged. -/
def processResource (raw_size : Int) (raw_data : List Nat) (width height : Nat) :
    List Nat × Bool × Nat :=
  if 0 < width ∧ 0 < height then
    if |raw_size - (width * height * 2 : Int)| < 4096 then
      let padding := (get_stride_info width).2.2
      let pixel_data := restride_to_bmp (swap_bytes_16bit raw_data) width height
      (create_bmp_header width height ++ pixel_data, true, padding)
    else (raw_data, false, 0)
  else (raw_data, false, 0)

/-- One manifest record (the fields the core emits per resource). -/
structure MetaRec where
  id : Nat
  original_offset : Nat
  original_raw_size : Int
  width : Nat
  height : Nat
  is_image : Bool
  row_padding_bytes : Nat
  saved_filename : List Nat
  final_data : List Nat
deriving DecidableEq

/-- The record main() emits for position i of the offset-sorted entry
list: slice the raw data from the offset of the entry, classify/transform,
and record the identity, provenance and applied transformations. -/
def recordAt (sorted : List RDesc) (dEnd : Nat) (data : List Nat) (i : Nat) : MetaRec :=
  let e := sorted.getD i default
  let raw_size := rawSizeAt sorted dEnd data.length i
  let raw_data := sliceOf data e.offset raw_size.toNat
  let base := sanitize_filename e.name
  let pr := processResource raw_size raw_data e.width e.height
  { id := i, original_offset := e.offset, original_raw_size := raw_size,
    width := e.width, height := e.height, is_image := pr.2.1,
    row_padding_bytes := pr.2.2,
    saved_filename := if pr.2.1 then bmpName base else base,
    final_data := pr.1 }

/-- The manifest-producing loop of main() over an already-scanned entry
list: sort by offset, compute each raw size, skip entries with
raw_size ≤ 0, and emit one record with id = position in the sorted
list. -/
def manifestFor (entries : List RDesc) (data : List Nat) : List MetaRec :=
  let sorted := sortEntries entries
  let dEnd := dataEndLimit (sorted.map fun e => e.meta_pos) data.length
  (List.range sorted.length).filterMap fun i =>
    if rawSizeAt sorted dEnd data.length i ≤ 0 then none
    else some (recordAt sorted dEnd data i)

/-- The whole 03-bitmap.py pipeline: scan the filesystem partition,
then run the manifest loop. -/
def buildManifest (data : List Nat) : List MetaRec :=
  manifestFor (scanEntries data) data

/-- The data_end_limit of the loop for a given entry list. -/
def dEndOf (entries : List RDesc) (data : List Nat) : Nat :=
  dataEndLimit ((sortEntries entries).map fun e => e.meta_pos) data.length

/-- The raw size the loop computes for position i of the offset-sorted
entry list. -/
def sizeAt (entries : List RDesc) (data : List Nat) (i : Nat) : Int :=
  rawSizeAt (sortEntries entries) (dEndOf entries data) data.length i

/-- A 0x15C-byte sample image whose Type-B header at 0xF4 holds the
words (1, 0x76251A, 0x25342A, 0), with words 1/2 differing from words
2/3 (the crafted header the targeted test of the spec calls for). -/
def sampleImage : List Nat :=
  List.replicate 0xF4 0 ++ [1, 0, 0, 0, 26, 37, 118, 0, 42, 52, 37, 0] ++
    List.replicate 0x5C 0

lemma parseTypeA_of_le {data : List Nat} {pos : Nat} (h : pos + 16 ≤ data.length) :
    parseTypeA data pos =
      some { offset := readLE32 data pos, size := readLE32 data (pos + 4) } := by
  simp [parseTypeA, unpack4u32, h]

/-- When the buffer covers every fixed header position, the decoder
produces exactly the six named partitions, with the Type-B entry taking
its offset from the word at 0xF8 and its size from the word at 0xFC. -/
lemma analyze_hybrid_headers_of_le {data : List Nat}
    (h : minFullDecodeLength ≤ data.length) :
    analyze_hybrid_headers data =
      some [("part_0_flag", { offset := readLE32 data 0x70, size := readLE32 data 0x74 }),
        ("part_1_firmware_a", { offset := readLE32 data 0x78, size := readLE32 data 0x7C }),
        ("part_2_firmware_b", { offset := readLE32 data 0x80, size := readLE32 data 0x84 }),
        ("part_3_resource", { offset := readLE32 data 0xCC, size := readLE32 data 0xD0 }),
        ("part_5_main_fs", { offset := readLE32 data 0x14C, size := readLE32 data 0x150 }),
        ("part_4_audio_dsp", { offset := readLE32 data 0xF8, size := readLE32 data 0xFC })] := by
  have hlen : (0x15C : Nat) ≤ data.length := h
  rw [analyze_hybrid_headers]
  rw [parseTypeA_of_le (by omega), parseTypeA_of_le (by omega), parseTypeA_of_le (by omega),
    parseTypeA_of_le (by omega), parseTypeA_of_le (by omega)]
  simp [unpack4u32, show (0xF4 : Nat) + 16 ≤ data.length by omega]

/-- If the buffer is too short for any fixed header read, the whole
decode raises (returns none). -/
lemma analyze_hybrid_headers_of_lt {data : List Nat}
    (h : data.length < minFullDecodeLength) :
    analyze_hybrid_headers data = none := by
  have hlen : data.length < 0x15C := h
  have h5 : parseTypeA data 0x14C = none := by
    simp [parseTypeA, unpack4u32]
    omega
  rw [analyze_hybrid_headers]
  cases h0 : parseTypeA data 0x70 <;>
    cases h1 : parseTypeA data 0x78 <;>
      cases h2 : parseTypeA data 0x80 <;>
        cases h3 : parseTypeA data 0xCC <;>
          simp [h5]

/-! ## Claim C1 -/

/-- C1 (counterexample): a 260-byte all-zero buffer is long enough to
read the 16-byte header at the Type-B position 0xF4, yet the decoder
raises at the earlier Type-A read at 0x14C before ever reaching the
Type-B header, so part_4_audio_dsp is assigned nothing at all. -/
theorem c1_typeB_claim_fails_on_short_buffer :
    0xF4 + 16 ≤ (List.replicate 260 0).length ∧
      analyze_hybrid_headers (List.replicate 260 0) = none := by
  constructor
  · rw [List.length_replicate]
  · exact analyze_hybrid_headers_of_lt (by rw [List.length_replicate]; decide)

/-- C1 (amended): for every input buffer long enough for all six fixed
header reads (length ≥ 0x15C), the decoder assigns part_4_audio_dsp an
offset equal to the second little-endian u32 word (at 0xF4 + 4) and a
size equal to the third word (at 0xF4 + 8) of the Type-B header — not
the first and second words as in Type-A entries. -/
theorem c1_typeB_selects_words_two_and_three (data : List Nat)
    (h : minFullDecodeLength ≤ data.length) :
    ∃ ps, analyze_hybrid_headers data = some ps ∧
      List.lookup "part_4_audio_dsp" ps =
        some { offset := readLE32 data (0xF4 + 4), size := readLE32 data (0xF4 + 8) } := by
  refine ⟨_, analyze_hybrid_headers_of_le h, ?_⟩
  rfl

/-- C1 (witness): on the crafted sample image whose Type-B words 1/2
differ from words 2/3, the decoder selects words 2 and 3. -/
theorem c1_typeB_selects_words_two_and_three_witness :
    minFullDecodeLength ≤ sampleImage.length ∧
      ∃ ps, analyze_hybrid_headers sampleImage = some ps ∧
        List.lookup "part_4_audio_dsp" ps =
          some { offset := 0x76251A, size := 0x25342A } := by
  refine ⟨by decide, ?_⟩
  obtain ⟨ps, h1, h2⟩ := c1_typeB_selects_words_two_and_three sampleImage (by decide)
  refine ⟨ps, h1, ?_⟩
  rw [h2]
  decide

/-! ## Claim C2 -/

/-- C2 (counterexample): a 200-byte all-zero buffer fully contains the
16-byte headers at 0x70, 0x78 and 0x80 and is not shorter than the
minimum required by any fixed header position (0x70 + 16 = 0x80 bytes),
yet the decode produces no partition entry at all: the uncaught
struct.error at position 0xCC aborts the whole decode. -/
theorem c2_short_header_aborts_whole_decode :
    0x70 + 16 ≤ (List.replicate 200 0).length ∧
      analyze_hybrid_headers (List.replicate 200 0) = none := by
  constructor
  · rw [List.length_replicate]
    decide
  · exact analyze_hybrid_headers_of_lt (by rw [List.length_replicate]; decide)

/-- C2 (amended): a buffer too short for any one of the six fixed
16-byte header reads aborts the entire decode (no mapping is produced);
the decode succeeds exactly when the buffer covers all fixed header
positions, i.e. when its length is at least 0x14C + 16 = 0x15C. -/
theorem c2_decode_succeeds_iff_buffer_covers_all_headers (data : List Nat) :
    (analyze_hybrid_headers data).isSome = true ↔ minFullDecodeLength ≤ data.length := by
  constructor
  · intro h
    by_contra hlt
    rw [analyze_hybrid_headers_of_lt (by omega)] at h
    simp at h
  · intro h
    rw [analyze_hybrid_headers_of_le h]
    rfl

/-- C2 (witness): a 348-byte buffer decodes, a 200-byte buffer does not. -/
theorem c2_decode_succeeds_iff_buffer_covers_all_headers_witness :
    (analyze_hybrid_headers (List.replicate 348 0)).isSome = true ∧
      (analyze_hybrid_headers (List.replicate 100 0)).isSome = false := by
  constructor
  · exact (c2_decode_succeeds_iff_buffer_covers_all_headers _).mpr
      (by rw [List.length_replicate]; decide)
  · rw [analyze_hybrid_headers_of_lt (by rw [List.length_replicate]; decide)]
    rfl

/-! ## Claim C5 : the 16-bit endian swap -/

lemma swap_bytes_16bit_length : ∀ l : List Nat,
    (swap_bytes_16bit l).length = 2 * (l.length / 2)
  | [] => by simp [swap_bytes_16bit]
  | [_] => by simp [swap_bytes_16bit]
  | _ :: _ :: rest => by
    have ih := swap_bytes_16bit_length rest
    simp [swap_bytes_16bit, ih]
    omega

lemma swap_bytes_16bit_involution : ∀ l : List Nat, l.length % 2 = 0 →
    swap_bytes_16bit (swap_bytes_16bit l) = l
  | [], _ => rfl
  | [_], h => by simp at h
  | a :: b :: rest, h => by
    have hr : rest.length % 2 = 0 := by
      simp only [List.length_cons] at h
      omega
    simp [swap_bytes_16bit, swap_bytes_16bit_involution rest hr]

lemma swap_bytes_16bit_pairs : ∀ (l : List Nat) (i : Nat), 2 * i + 1 < l.length →
    (swap_bytes_16bit l).getD (2 * i) 0 = l.getD (2 * i + 1) 0 ∧
      (swap_bytes_16bit l).getD (2 * i + 1) 0 = l.getD (2 * i) 0
  | [], i, h => by simp at h
  | [_], i, h => by
    simp only [List.length_cons, List.length_nil] at h
    omega
  | a :: b :: rest, 0, _ => by simp [swap_bytes_16bit]
  | a :: b :: rest, i + 1, h => by
    have h2 : 2 * i + 1 < rest.length := by
      simp only [List.length_cons] at h
      omega
    have ih := swap_bytes_16bit_pairs rest i h2
    have e1 : 2 * (i + 1) = 2 * i + 1 + 1 := by ring
    rw [e1]
    simpa [swap_bytes_16bit] using ih

/-- C5: the swap exchanges each adjacent byte pair, the output length is
the input length rounded down to a multiple of 2 (the trailing odd byte
is truncated), and on even-length buffers the swap is an involution. -/
theorem c5_swap_pairs_truncates_and_is_involution (l : List Nat) :
    (swap_bytes_16bit l).length = 2 * (l.length / 2) ∧
      (l.length % 2 = 0 → swap_bytes_16bit (swap_bytes_16bit l) = l) ∧
      (∀ i, 2 * i + 1 < l.length →
        (swap_bytes_16bit l).getD (2 * i) 0 = l.getD (2 * i + 1) 0 ∧
          (swap_bytes_16bit l).getD (2 * i + 1) 0 = l.getD (2 * i) 0) :=
  ⟨swap_bytes_16bit_length l, swap_bytes_16bit_involution l, swap_bytes_16bit_pairs l⟩

/-- C5 (witness): the 16-byte 4x2 round trip of the test of the spec, the
truncating length on an odd buffer, and one concrete pair exchange. -/
theorem c5_swap_pairs_truncates_and_is_involution_witness :
    swap_bytes_16bit (swap_bytes_16bit [1, 2, 3, 4, 5, 6, 7, 8, 9, 10, 11, 12, 13, 14, 15, 16]) =
        [1, 2, 3, 4, 5, 6, 7, 8, 9, 10, 11, 12, 13, 14, 15, 16] ∧
      (swap_bytes_16bit [1, 2, 3, 4, 5]).length = 2 * ([1, 2, 3, 4, 5].length / 2) ∧
      (swap_bytes_16bit [1, 2, 3, 4]).getD 0 0 = [1, 2, 3, 4].getD 1 0 :=
  ⟨(c5_swap_pairs_truncates_and_is_involution _).2.1 (by decide),
    (c5_swap_pairs_truncates_and_is_involution [1, 2, 3, 4, 5]).1,
    ((c5_swap_pairs_truncates_and_is_involution [1, 2, 3, 4]).2.2 0 (by decide)).1⟩

/-! ## Claim C4 : image classification heuristic -/

/-- C4: a resource is classified as an image (and converted to a bitmap
container) iff width > 0, height > 0 and |raw_size - width*height*2| <
4096; otherwise the raw bytes pass through unchanged.  In particular
width = 10, height = 10, raw_size = 204 classifies as image, and any
raw_size whose difference from 200 is at least 4096 does not. -/
theorem c4_image_classification (width height : Nat) (raw_size : Int) (raw : List Nat) :
    ((processResource raw_size raw width height).2.1 = true ↔
        0 < width ∧ 0 < height ∧ |raw_size - (width * height * 2 : Int)| < 4096) ∧
      ((processResource raw_size raw width height).2.1 = false →
        (processResource raw_size raw width height).1 = raw) ∧
      (processResource 204 raw 10 10).2.1 = true ∧
      (∀ t : Int, 4096 ≤ |t - 200| → (processResource t raw 10 10).2.1 = false) := by
  refine ⟨?_, ?_, ?_, ?_⟩
  · by_cases hwh : 0 < width ∧ 0 < height
    · by_cases habs : |raw_size - (width * height * 2 : Int)| < 4096
      · simp [processResource, hwh, habs]
      · simp [processResource, hwh, habs]
    · simp [processResource, hwh]
      tauto
  · by_cases hwh : 0 < width ∧ 0 < height
    · by_cases habs : |raw_size - (width * height * 2 : Int)| < 4096
      · simp [processResource, hwh, habs]
      · simp [processResource, hwh, habs]
    · simp [processResource, hwh]
  · norm_num [processResource]
  · intro t ht
    have hc : ¬(|t - (200 : Int)| < 4096) := not_lt.mpr ht
    simp [processResource, hc]

/-- C4 (witness): concrete classification on both sides of the
tolerance boundary. -/
theorem c4_image_classification_witness :
    (processResource 204 [] 10 10).2.1 = true ∧
      (processResource 4296 [] 10 10).2.1 = false :=
  ⟨(c4_image_classification 10 10 204 []).2.2.1,
    (c4_image_classification 10 10 4296 []).2.2.2 4296 (by norm_num)⟩

/-! ## Claim C6 : restriding to 4-byte aligned rows -/

lemma dst_stride_ge (s : Nat) : s ≤ (s + 3) / 4 * 4 := by omega

lemma padded_eq (raw : List Nat) (e : Nat) :
    (if raw.length < e then raw ++ List.replicate (e - raw.length) 0 else raw) =
      raw ++ List.replicate (e - raw.length) 0 := by
  split
  · rfl
  · rw [Nat.sub_eq_zero_of_le (by omega)]
    simp

lemma sliceOf_length_of_le {l : List Nat} {pos len : Nat} (h : pos + len ≤ l.length) :
    (sliceOf l pos len).length = len := by
  simp [sliceOf]
  omega

lemma flatten_uniform_row {α : Type} (d : Nat) : ∀ (L : List (List α)) (y : Nat),
    (∀ r ∈ L, r.length = d) → y < L.length →
    (L.flatten.drop (y * d)).take d = L.getD y []
  | [], y, _, hy => by simp at hy
  | r :: L, 0, hall, _ => by
    have hr : r.length = d := hall r (by simp)
    simp only [Nat.zero_mul, List.drop_zero, List.flatten_cons, List.getD_cons_zero]
    rw [← hr, List.take_left]
  | r :: L, y + 1, hall, hy => by
    have hr : r.length = d := hall r (by simp)
    have hmul : (y + 1) * d = r.length + y * d := by rw [hr]; ring
    rw [hmul, List.flatten_cons, List.drop_append, List.getD_cons_succ]
    exact flatten_uniform_row d L y (fun x hx => hall x (by simp [hx])) (by simpa using hy)

lemma restride_general (raw : List Nat) (width height : Nat)
    (hgen : ¬((width * 2 + 3) / 4 * 4 - width * 2 = 0 ∧ raw.length = width * 2 * height)) :
    restride_to_bmp raw width height =
      ((List.range height).map fun y =>
        sliceOf (raw ++ List.replicate (width * 2 * height - raw.length) 0)
            (y * (width * 2)) (width * 2) ++
          List.replicate ((width * 2 + 3) / 4 * 4 - width * 2) 0).flatten := by
  rw [restride_to_bmp]
  simp only [get_stride_info]
  rw [if_neg hgen, padded_eq]

lemma padded_covers (raw : List Nat) (width height y : Nat) (hy : y < height) :
    y * (width * 2) + width * 2 ≤
      (raw ++ List.replicate (width * 2 * height - raw.length) 0).length := by
  have hlen : (raw ++ List.replicate (width * 2 * height - raw.length) 0).length =
      raw.length + (width * 2 * height - raw.length) := by simp
  have h4 : y * (width * 2) + width * 2 ≤ width * 2 * height := by
    have h1 : (y + 1) * (width * 2) ≤ height * (width * 2) :=
      Nat.mul_le_mul_right _ (by omega)
    calc y * (width * 2) + width * 2 = (y + 1) * (width * 2) := by ring
      _ ≤ height * (width * 2) := h1
      _ = width * 2 * height := by ring
  omega

lemma restride_row_length (raw : List Nat) (width height y : Nat) (hy : y < height) :
    (sliceOf (raw ++ List.replicate (width * 2 * height - raw.length) 0)
        (y * (width * 2)) (width * 2) ++
      List.replicate ((width * 2 + 3) / 4 * 4 - width * 2) 0).length =
      (width * 2 + 3) / 4 * 4 := by
  rw [List.length_append, sliceOf_length_of_le (padded_covers raw width height y hy),
    List.length_replicate]
  have := dst_stride_ge (width * 2)
  omega

/-- C6: restriding produces height rows of dst_stride = (width*2+3)/4*4
bytes; row y is the corresponding tightly packed src_stride = width*2
byte row of the (zero-extended, never failing on short data) input,
followed by dst_stride - src_stride zero padding bytes. -/
theorem c6_restride_pads_each_row (raw : List Nat) (width height : Nat) :
    (restride_to_bmp raw width height).length = height * ((width * 2 + 3) / 4 * 4) ∧
      ∀ y, y < height →
        ((restride_to_bmp raw width height).drop (y * ((width * 2 + 3) / 4 * 4))).take
            ((width * 2 + 3) / 4 * 4) =
          ((raw ++ List.replicate (width * 2 * height - raw.length) 0).drop
              (y * (width * 2))).take (width * 2) ++
            List.replicate ((width * 2 + 3) / 4 * 4 - width * 2) 0 := by
  by_cases hc : (width * 2 + 3) / 4 * 4 - width * 2 = 0 ∧ raw.length = width * 2 * height
  · have hds : (width * 2 + 3) / 4 * 4 = width * 2 := by
      have h1 := dst_stride_ge (width * 2)
      omega
    have hres : restride_to_bmp raw width height = raw := by
      rw [restride_to_bmp]
      simp only [get_stride_info]
      rw [if_pos hc]
    constructor
    · rw [hres, hc.2, hds]
      ring
    · intro y hy
      rw [hres, hds]
      have hz : width * 2 * height - raw.length = 0 := by omega
      have hz2 : width * 2 - width * 2 = 0 := Nat.sub_self _
      rw [hz, hz2]
      simp
  · have hrows := restride_general raw width height hc
    have hrowlen : ∀ r ∈ (List.range height).map fun y =>
        sliceOf (raw ++ List.replicate (width * 2 * height - raw.length) 0)
            (y * (width * 2)) (width * 2) ++
          List.replicate ((width * 2 + 3) / 4 * 4 - width * 2) 0,
        r.length = (width * 2 + 3) / 4 * 4 := by
      intro r hr
      obtain ⟨y, hy, rfl⟩ := List.mem_map.mp hr
      exact restride_row_length raw width height y (List.mem_range.mp hy)
    constructor
    · rw [hrows, List.length_flatten]
      have : ((List.range height).map fun y =>
          sliceOf (raw ++ List.replicate (width * 2 * height - raw.length) 0)
              (y * (width * 2)) (width * 2) ++
            List.replicate ((width * 2 + 3) / 4 * 4 - width * 2) 0).map List.length =
          List.replicate height ((width * 2 + 3) / 4 * 4) := by
        rw [List.eq_replicate_iff]
        constructor
        · simp
        · intro b hb
          obtain ⟨r, hr, rfl⟩ := List.mem_map.mp hb
          exact hrowlen r hr
      rw [this, List.sum_replicate, smul_eq_mul]
    · intro y hy
      rw [hrows, flatten_uniform_row _ _ y hrowlen (by simpa using hy)]
      have hg : ((List.range height).map fun y =>
          sliceOf (raw ++ List.replicate (width * 2 * height - raw.length) 0)
              (y * (width * 2)) (width * 2) ++
            List.replicate ((width * 2 + 3) / 4 * 4 - width * 2) 0).getD y [] =
          sliceOf (raw ++ List.replicate (width * 2 * height - raw.length) 0)
              (y * (width * 2)) (width * 2) ++
            List.replicate ((width * 2 + 3) / 4 * 4 - width * 2) 0 := by
        have hylen : y < ((List.range height).map fun y =>
            sliceOf (raw ++ List.replicate (width * 2 * height - raw.length) 0)
                (y * (width * 2)) (width * 2) ++
              List.replicate ((width * 2 + 3) / 4 * 4 - width * 2) 0).length := by
          simpa using hy
        rw [List.getD_eq_getElem _ _ hylen]
        simp
      rw [hg]
      simp [sliceOf, get_stride_info]

/-- C6 (witness): a 2-byte input for a declared 3x2 16-bit image is
zero-extended and restrided to two 8-byte rows. -/
theorem c6_restride_pads_each_row_witness :
    (restride_to_bmp [1, 2] 3 2).length = 16 ∧
      ((restride_to_bmp [1, 2] 3 2).drop 8).take 8 = [0, 0, 0, 0, 0, 0, 0, 0] :=
  ⟨(c6_restride_pads_each_row [1, 2] 3 2).1,
    (c6_restride_pads_each_row [1, 2] 3 2).2 1 (by decide)⟩

/-! ## Claim C8 : filename sanitization -/

/-- C8 (counterexample): the claim says every character in the preserved
set "._-(), " is kept, but the final strip() of the sanitizer removes leading
and trailing spaces: " a" sanitizes to "a", not " a". -/
theorem c8_leading_space_is_stripped :
    sanitize_filename [32, 97] = [97] ∧ sanitize_filename [32, 97] ≠ [32, 97] := by
  decide

/-- C8 (amended): the output filename replaces the path separators / and
\ with _, keeps every character that is alphanumeric or one of
"._-(), ", replaces every other character with _, and finally strips
leading and trailing spaces; "icon:back/1.png" sanitizes to
"icon_back_1.png", and bitmap outputs get ".bmp" appended exactly when
the name does not already end in it (case-insensitively). -/
theorem c8_sanitize_filename (name base : List Nat) :
    (sanitize_filename name =
        stripSpaces (((name.map fun c => if c == 47 || c == 92 then 95 else c).map
          fun c => if isAlnumCode c || c ∈ keepCodes then c else 95))) ∧
      sanitize_filename [105, 99, 111, 110, 58, 98, 97, 99, 107, 47, 49, 46, 112, 110, 103] =
        [105, 99, 111, 110, 95, 98, 97, 99, 107, 95, 49, 46, 112, 110, 103] ∧
      (endsWithBmp base = false → bmpName base = base ++ [46, 98, 109, 112]) ∧
      (endsWithBmp base = true → bmpName base = base) := by
  refine ⟨rfl, by decide, ?_, ?_⟩
  · intro hb
    simp [bmpName, hb]
  · intro hb
    simp [bmpName, hb]

/-- C8 (witness): ".bmp" is appended to "a" and not to "a.bmp". -/
theorem c8_sanitize_filename_witness :
    bmpName [97] = [97] ++ [46, 98, 109, 112] ∧
      bmpName [97, 46, 98, 109, 112] = [97, 46, 98, 109, 112] :=
  ⟨(c8_sanitize_filename [] [97]).2.2.1 (by decide),
    (c8_sanitize_filename [] [97, 46, 98, 109, 112]).2.2.2 (by decide)⟩

/-! ## Claim C7 : the resource table scanner -/

lemma find?_filter_split (f : Nat → Bool) : ∀ (l : List Nat) (start p : Nat),
    l.Pairwise (· < ·) →
    l.find? (fun q => decide (start ≤ q) && f q) = some p →
    l.filter (fun q => decide (start ≤ q) && f q) =
      p :: l.filter (fun q => decide (p + 1 ≤ q) && f q)
  | [], _, _, _, hf => by simp at hf
  | a :: l, start, p, hs, hf => by
    have hlt : ∀ x ∈ l, a < x := (List.pairwise_cons.mp hs).1
    by_cases ha : (decide (start ≤ a) && f a) = true
    · rw [List.find?_cons_of_pos (p := fun q => decide (start ≤ q) && f q) l ha] at hf
      injection hf with hpa
      subst hpa
      rw [List.filter_cons_of_pos (p := fun q => decide (start ≤ q) && f q) ha]
      have hnota : ¬((decide (a + 1 ≤ a) && f a) = true) := by simp
      rw [List.filter_cons_of_neg (p := fun q => decide (a + 1 ≤ q) && f q) hnota]
      have hcong : l.filter (fun q => decide (start ≤ q) && f q) =
          l.filter (fun q => decide (a + 1 ≤ q) && f q) := by
        apply List.filter_congr
        intro x hx
        have h1 : start ≤ x := by
          have h3 := hlt x hx
          have h2 : start ≤ a := by
            by_contra hcon
            simp [hcon] at ha
          omega
        have h2 : a + 1 ≤ x := hlt x hx
        simp [h1, h2]
      rw [hcong]
    · rw [List.find?_cons_of_neg (p := fun q => decide (start ≤ q) && f q) l ha] at hf
      have hrec := find?_filter_split f l start p hs.of_cons hf
      have hap : a < p := hlt p (List.mem_of_find?_eq_some hf)
      rw [List.filter_cons_of_neg (p := fun q => decide (start ≤ q) && f q) ha, hrec]
      have ha2 : ¬((decide (p + 1 ≤ a) && f a) = true) := by
        have hnle : ¬(p + 1 ≤ a) := by omega
        simp [hnle]
      rw [List.filter_cons_of_neg (p := fun q => decide (p + 1 ≤ q) && f q) ha2]

/-- The while/find scan loop visits exactly the positions at which the
magic signature occurs (restarting at match + 1 is overlap-tolerant and
misses nothing). -/
theorem scanPositions_eq (data : List Nat) (start : Nat) :
    scanPositions data start =
      (List.range data.length).filter fun p => decide (start ≤ p) && matchAt data p := by
  suffices h : ∀ k start, data.length - start ≤ k →
      scanPositions data start =
        (List.range data.length).filter fun p => decide (start ≤ p) && matchAt data p from
    h data.length start (by omega)
  intro k
  induction k with
  | zero =>
    intro start hle
    rw [scanPositions]
    split
    next hnone =>
      rw [findMagicFrom] at hnone
      exact (List.filter_eq_nil_iff.mpr fun q hq => List.find?_eq_none.mp hnone q hq).symm
    next p hsome =>
      rw [findMagicFrom] at hsome
      exfalso
      have hp : start ≤ p ∧ matchAt data p = true := by simpa using List.find?_some hsome
      have hmem : p < data.length := by
        simpa [List.mem_range] using List.mem_of_find?_eq_some hsome
      omega
  | succ k IH =>
    intro start hle
    rw [scanPositions]
    split
    next hnone =>
      rw [findMagicFrom] at hnone
      exact (List.filter_eq_nil_iff.mpr fun q hq => List.find?_eq_none.mp hnone q hq).symm
    next p hsome =>
      rw [findMagicFrom] at hsome
      have hp : start ≤ p ∧ matchAt data p = true := by simpa using List.find?_some hsome
      have hmem : p < data.length := by
        simpa [List.mem_range] using List.mem_of_find?_eq_some hsome
      rw [IH (p + 1) (by omega)]
      exact (find?_filter_split (matchAt data) (List.range data.length) start p
        (List.pairwise_lt_range _) hsome).symm

lemma parseEntry_eq (data : List Nat) (pos : Nat) :
    parseEntry data pos =
      if pos + 32 ≤ data.length then
        (if readLE32 data (pos + 20) < data.length ∧
            0 < (decode_raw_name (sliceOf data (pos + 32) 64)).length then
          some { meta_pos := pos, offset := readLE32 data (pos + 20),
                 width := readLE32 data (pos + 24), height := readLE32 data (pos + 28),
                 name := decode_raw_name (sliceOf data (pos + 32) 64) }
        else none)
      else none := by
  by_cases h : pos + 32 ≤ data.length
  · have h1 : unpackLE32 data (pos + 20) = some (readLE32 data (pos + 20)) := by
      rw [unpackLE32, if_pos (by omega)]
    have h2 : unpackLE32 data (pos + 24) = some (readLE32 data (pos + 24)) := by
      rw [unpackLE32, if_pos (by omega)]
    have h3 : unpackLE32 data (pos + 28) = some (readLE32 data (pos + 28)) := by
      rw [unpackLE32, if_pos (by omega)]
    rw [if_pos h]
    simp [parseEntry, h1, h2, h3]
  · have h3 : unpackLE32 data (pos + 28) = none := by
      rw [unpackLE32, if_neg (by omega)]
    rw [if_neg h]
    cases h1 : unpackLE32 data (pos + 20) <;>
      cases h2 : unpackLE32 data (pos + 24) <;>
        simp [parseEntry, h1, h2, h3]

/-- C7: the scanner collects exactly one candidate per occurrence of the
5-byte magic signature (the search resumes at match + 1, so every
occurrence is found); at each match it decodes the little-endian u32
data offset at match+20, width at match+24, height at match+28 and the
64-byte name field at match+32 truncated at the first null with bytes
≥ 128 dropped; a descriptor is kept iff the offset is below the buffer
length and the name is non-empty, and matches within 32 bytes of the
buffer end are skipped without aborting the scan. -/
theorem c7_scanner_finds_every_match_and_validates (data : List Nat) :
    scanEntries data =
      ((List.range data.length).filter fun p => decide (sliceOf data p 5 = MAGIC_SIG)).filterMap
        fun p =>
          if p + 32 ≤ data.length then
            (if readLE32 data (p + 20) < data.length ∧
                0 < (((sliceOf data (p + 32) 64).takeWhile fun b => b != 0).filter
                  fun b => b < 128).length then
              some { meta_pos := p, offset := readLE32 data (p + 20),
                     width := readLE32 data (p + 24), height := readLE32 data (p + 28),
                     name := ((sliceOf data (p + 32) 64).takeWhile fun b => b != 0).filter
                       fun b => b < 128 }
            else none)
          else none := by
  rw [scanEntries, scanPositions_eq]
  have hpred : ((List.range data.length).filter fun p => decide (0 ≤ p) && matchAt data p) =
      (List.range data.length).filter fun p => decide (sliceOf data p 5 = MAGIC_SIG) := by
    apply List.filter_congr
    intro x _
    simp [matchAt]
  rw [hpred]
  apply List.filterMap_congr
  intro x _
  rw [parseEntry_eq]
  rfl

/-! ## Claim C3 : resource boundary inference -/

lemma sortEntries_perm (entries : List RDesc) : (sortEntries entries).Perm entries :=
  List.mergeSort_perm entries _

lemma sortEntries_sorted (entries : List RDesc) :
    (sortEntries entries).Pairwise fun a b => a.offset ≤ b.offset := by
  have htrans : ∀ a b c : RDesc, (decide (a.offset ≤ b.offset)) = true →
      (decide (b.offset ≤ c.offset)) = true → (decide (a.offset ≤ c.offset)) = true := by
    intro a b c hab hbc
    simp at hab hbc ⊢
    omega
  have htotal : ∀ a b : RDesc,
      ((decide (a.offset ≤ b.offset)) || (decide (b.offset ≤ a.offset))) = true := by
    intro a b
    simp
    omega
  have hs := @List.sorted_mergeSort RDesc (fun a b => decide (a.offset ≤ b.offset))
    htrans htotal entries
  exact hs.imp fun h => by simpa using h

lemma recordAt_id (sorted : List RDesc) (dEnd : Nat) (data : List Nat) (i : Nat) :
    (recordAt sorted dEnd data i).id = i := rfl

lemma recordAt_offset (sorted : List RDesc) (dEnd : Nat) (data : List Nat) (i : Nat) :
    (recordAt sorted dEnd data i).original_offset = (sorted.getD i default).offset := rfl

lemma recordAt_size (sorted : List RDesc) (dEnd : Nat) (data : List Nat) (i : Nat) :
    (recordAt sorted dEnd data i).original_raw_size = rawSizeAt sorted dEnd data.length i := rfl

/-- Every manifest record arises from an index of the sorted list whose
computed raw size is positive. -/
lemma mem_manifestFor (entries : List RDesc) (data : List Nat) (m : MetaRec) :
    m ∈ manifestFor entries data ↔
      ∃ i, i < (sortEntries entries).length ∧ 0 < sizeAt entries data i ∧
        m = recordAt (sortEntries entries) (dEndOf entries data) data i := by
  simp only [manifestFor, sizeAt, dEndOf, List.mem_filterMap, List.mem_range]
  constructor
  · rintro ⟨i, hi, hf⟩
    split at hf
    · exact absurd hf (by simp)
    · injection hf with hrec
      exact ⟨i, hi, by omega, hrec.symm⟩
  · rintro ⟨i, hi, hpos, rfl⟩
    exact ⟨i, hi, by rw [if_neg (by omega)]⟩

lemma mem_manifestFor_raw_size_pos (entries : List RDesc) (data : List Nat) :
    ∀ m ∈ manifestFor entries data, 0 < m.original_raw_size := by
  intro m hm
  obtain ⟨i, _, hpos, rfl⟩ := (mem_manifestFor entries data m).mp hm
  rw [recordAt_size]
  simpa [sizeAt, dEndOf] using hpos

lemma manifestFor_complete (entries : List RDesc) (data : List Nat) :
    ∀ i, i < (sortEntries entries).length → 0 < sizeAt entries data i →
      ∃ m ∈ manifestFor entries data, m.id = i ∧
        m.original_raw_size = sizeAt entries data i := by
  intro i hi hpos
  refine ⟨recordAt (sortEntries entries) (dEndOf entries data) data i,
    (mem_manifestFor entries data _).mpr ⟨i, hi, hpos, rfl⟩, recordAt_id _ _ _ _, ?_⟩
  rw [recordAt_size]
  rfl

/-- C3: boundary inference sorts the scanned descriptors by data offset
ascending (a permutation of the input, pairwise non-decreasing in
offset); entry i before the last gets raw_size = offset[i+1] −
offset[i]; the last entry gets (minimum meta position) − offset[last]
with a fallback to image_length − offset[last] when that is negative;
exactly the entries with positive computed size survive into the
manifest; and descriptors at offsets [100, 250, 600] with the metadata
region starting at 700 receive sizes [150, 350, 100]. -/
theorem c3_boundary_inference (entries : List RDesc) (data : List Nat)
    (_hne : entries ≠ []) :
    (sortEntries entries).Perm entries ∧
      ((sortEntries entries).Pairwise fun a b => a.offset ≤ b.offset) ∧
      (∀ i, i + 1 < (sortEntries entries).length →
        sizeAt entries data i =
          (((sortEntries entries).getD (i + 1) default).offset : Int) -
            (((sortEntries entries).getD i default).offset : Int)) ∧
      (sizeAt entries data ((sortEntries entries).length - 1) =
        if (dEndOf entries data : Int) -
            (((sortEntries entries).getD ((sortEntries entries).length - 1) default).offset :
              Int) < 0 then
          (data.length : Int) -
            (((sortEntries entries).getD ((sortEntries entries).length - 1) default).offset :
              Int)
        else
          (dEndOf entries data : Int) -
            (((sortEntries entries).getD ((sortEntries entries).length - 1) default).offset :
              Int)) ∧
      (∀ m ∈ manifestFor entries data, 0 < m.original_raw_size) ∧
      (∀ i, i < (sortEntries entries).length → 0 < sizeAt entries data i →
        ∃ m ∈ manifestFor entries data, m.id = i ∧
          m.original_raw_size = sizeAt entries data i) ∧
      ((List.range 3).map
          (fun i => sizeAt [⟨700, 100, 0, 0, [97]⟩, ⟨796, 250, 0, 0, [98]⟩, ⟨892, 600, 0, 0, [99]⟩]
            (List.replicate 1000 0) i) = [150, 350, 100]) := by
  have hsorted : sortEntries
      [⟨700, 100, 0, 0, [97]⟩, ⟨796, 250, 0, 0, [98]⟩, ⟨892, 600, 0, 0, [99]⟩] =
      [⟨700, 100, 0, 0, [97]⟩, ⟨796, 250, 0, 0, [98]⟩, ⟨892, 600, 0, 0, [99]⟩] :=
    List.mergeSort_of_sorted (by decide)
  refine ⟨sortEntries_perm entries, sortEntries_sorted entries, ?_, ?_,
    mem_manifestFor_raw_size_pos entries data, manifestFor_complete entries data, ?_⟩
  · intro i hi
    rw [sizeAt, rawSizeAt, if_pos (by omega)]
  · rw [sizeAt, rawSizeAt, if_neg (by omega)]
  · simp only [sizeAt, dEndOf, hsorted]
    decide

/-- C3 (witness): the boundary-inference example of the spec, through the
theorem. -/
theorem c3_boundary_inference_witness :
    ([⟨700, 100, 0, 0, [97]⟩, ⟨796, 250, 0, 0, [98]⟩, ⟨892, 600, 0, 0, [99]⟩] ≠
        ([] : List RDesc)) ∧
      (List.range 3).map
        (fun i => sizeAt [⟨700, 100, 0, 0, [97]⟩, ⟨796, 250, 0, 0, [98]⟩, ⟨892, 600, 0, 0, [99]⟩]
          (List.replicate 1000 0) i) = [150, 350, 100] :=
  ⟨by decide,
    (c3_boundary_inference
      [⟨700, 100, 0, 0, [97]⟩, ⟨796, 250, 0, 0, [98]⟩, ⟨892, 600, 0, 0, [99]⟩]
      (List.replicate 1000 0) (by decide)).2.2.2.2.2.2⟩

/-! ## Claim C10 : manifest ordering -/

lemma manifestFor_pairwise (entries : List RDesc) (data : List Nat) :
    ((manifestFor entries data).map fun m => m.id).Pairwise (· < ·) ∧
      ((manifestFor entries data).map fun m => m.original_offset).Pairwise (· ≤ ·) := by
  have hsorted := sortEntries_sorted entries
  constructor
  · rw [List.pairwise_map]
    simp only [manifestFor]
    rw [List.pairwise_filterMap, List.pairwise_iff_get]
    intro ik jk hij
    simp only [List.get_eq_getElem, List.getElem_range]
    intro m hm m' hm'
    rw [Option.mem_def] at hm hm'
    split at hm
    · exact absurd hm (by simp)
    · split at hm'
      · exact absurd hm' (by simp)
      · injection hm with h1
        injection hm' with h2
        subst h1
        subst h2
        rw [recordAt_id, recordAt_id]
        exact hij
  · rw [List.pairwise_map]
    simp only [manifestFor]
    rw [List.pairwise_filterMap, List.pairwise_iff_get]
    intro ik jk hij
    simp only [List.get_eq_getElem, List.getElem_range]
    intro m hm m' hm'
    rw [Option.mem_def] at hm hm'
    split at hm
    · exact absurd hm (by simp)
    · split at hm'
      · exact absurd hm' (by simp)
      · injection hm with h1
        injection hm' with h2
        subst h1
        subst h2
        rw [recordAt_offset, recordAt_offset]
        have hik : (ik : Nat) < (sortEntries entries).length := by
          have := ik.isLt
          simpa using this
        have hjk : (jk : Nat) < (sortEntries entries).length := by
          have := jk.isLt
          simpa using this
        rw [List.getD_eq_getElem _ _ hik, List.getD_eq_getElem _ _ hjk]
        have hrel := List.pairwise_iff_get.mp hsorted ⟨(ik : Nat), hik⟩ ⟨(jk : Nat), hjk⟩ hij
        simpa [List.get_eq_getElem] using hrel

lemma manifestFor_id_positions (entries : List RDesc) (data : List Nat) :
    ∀ m ∈ manifestFor entries data,
      m.id < (sortEntries entries).length ∧
        m.original_offset = ((sortEntries entries).getD m.id default).offset := by
  intro m hm
  obtain ⟨i, hi, _, rfl⟩ := (mem_manifestFor entries data m).mp hm
  rw [recordAt_id, recordAt_offset]
  exact ⟨hi, rfl⟩

/-- C10: manifest records are emitted in non-decreasing original_offset
order with strictly increasing ids; each id is the position of the record in
the offset-sorted descriptor list, so ids can skip a position when a
descriptor in between is dropped for non-positive computed size (as in
the concrete run, whose ids are [0, 2, 3]). -/
theorem c10_manifest_ordered_ids_and_offsets (data : List Nat) :
    ((buildManifest data).map fun m => m.original_offset).Pairwise (· ≤ ·) ∧
      ((buildManifest data).map fun m => m.id).Pairwise (· < ·) ∧
      (∀ m ∈ buildManifest data,
        m.id < (sortEntries (scanEntries data)).length ∧
          m.original_offset = ((sortEntries (scanEntries data)).getD m.id default).offset) ∧
      ((manifestFor
          [⟨700, 100, 0, 0, [97]⟩, ⟨796, 250, 0, 0, [98]⟩, ⟨892, 250, 0, 0, [99]⟩,
            ⟨988, 600, 0, 0, [100]⟩]
          (List.replicate 1000 0)).map fun m => m.id) = [0, 2, 3] := by
  refine ⟨(manifestFor_pairwise _ _).2, (manifestFor_pairwise _ _).1,
    manifestFor_id_positions _ _, ?_⟩
  have hsorted : sortEntries
      [⟨700, 100, 0, 0, [97]⟩, ⟨796, 250, 0, 0, [98]⟩, ⟨892, 250, 0, 0, [99]⟩,
        ⟨988, 600, 0, 0, [100]⟩] =
      [⟨700, 100, 0, 0, [97]⟩, ⟨796, 250, 0, 0, [98]⟩, ⟨892, 250, 0, 0, [99]⟩,
        ⟨988, 600, 0, 0, [100]⟩] :=
    List.mergeSort_of_sorted (by decide)
  simp only [manifestFor, dEndOf, hsorted]
  decide

/-- C10 (witness): the dropped middle descriptor leaves ids [0, 2, 3]. -/
theorem c10_manifest_ordered_ids_and_offsets_witness :
    ((manifestFor
        [⟨700, 100, 0, 0, [97]⟩, ⟨796, 250, 0, 0, [98]⟩, ⟨892, 250, 0, 0, [99]⟩,
          ⟨988, 600, 0, 0, [100]⟩]
        (List.replicate 1000 0)).map fun m => m.id) = [0, 2, 3] :=
  (c10_manifest_ordered_ids_and_offsets []).2.2.2

/-! ## Claim C9 -/

/-- C9: for every input buffer long enough for all six fixed header
reads, the decoder returns a mapping with exactly the six partition
names part_0_flag, part_1_firmware_a, part_2_firmware_b,
part_3_resource, part_4_audio_dsp and part_5_main_fs — never more,
never fewer, and at most one partition per name. -/
theorem c9_exactly_six_distinct_partitions (data : List Nat)
    (h : minFullDecodeLength ≤ data.length) :
    ∃ ps, analyze_hybrid_headers data = some ps ∧
      ps.map Prod.fst = ["part_0_flag", "part_1_firmware_a", "part_2_firmware_b",
        "part_3_resource", "part_5_main_fs", "part_4_audio_dsp"] ∧
      (ps.map Prod.fst).Nodup := by
  refine ⟨_, analyze_hybrid_headers_of_le h, by simp, ?_⟩
  simp only [List.map_cons, List.map_nil]
  decide

/-- C9 (witness): the six-partition shape on a concrete 348-byte buffer. -/
theorem c9_exactly_six_distinct_partitions_witness :
    ∃ ps, analyze_hybrid_headers (List.replicate 348 0) = some ps ∧
      ps.map Prod.fst = ["part_0_flag", "part_1_firmware_a", "part_2_firmware_b",
        "part_3_resource", "part_5_main_fs", "part_4_audio_dsp"] ∧
      (ps.map Prod.fst).Nodup :=
  c9_exactly_six_distinct_partitions (List.replicate 348 0)
    (by rw [List.length_replicate]; decide)

end Firmware
